import Mathlib

/-!
Verification of the CRC64-ECMA checksum engine, retrying request executor,
multipart transfer manager, canonical signer and credential sources of the
`rs-ali-oss` client library, via a shallow embedding of the relevant Rust
functions as Lean definitions.
-/

namespace Crc64

/-- Reversed/reflected form of the CRC64-ECMA-182 polynomial, exactly the
`POLY` constant of `src/crc64.rs`. -/
def POLY : Nat := 0xC96C5795D7870F42

/-- One round of the table-building inner loop of `make_table`: shift right
one bit and XOR the polynomial when the low bit is set. -/
def crcStep (crc : Nat) : Nat :=
  if crc &&& 1 = 1 then (crc >>> 1) ^^^ POLY else crc >>> 1

/-- Entry `i` of the 256-entry lookup table built by `make_table`: eight
`crcStep` rounds starting from `i`. -/
def TABLE (i : Nat) : Nat := crcStep^[8] i

/-- A byte of input data (`u8`). -/
abbrev Byte := Fin 256

/-- The body of the `update` loop of `src/crc64.rs` for a single byte:
`crc = TABLE[(crc ^ byte) & 0xFF] ^ (crc >> 8)`. -/
def updateStep (crc : Nat) (byte : Byte) : Nat :=
  TABLE ((crc ^^^ byte.val) &&& 0xFF) ^^^ (crc >>> 8)

/-- `update(crc, data)`: advance a running CRC64-ECMA checksum. -/
def update (crc : Nat) (data : List Byte) : Nat :=
  data.foldl updateStep crc

/-- `checksum(data)`: CRC64-ECMA checksum of a byte slice, seeded at 0. -/
def checksum (data : List Byte) : Nat := update 0 data

/-- The `gf2_matrix_times` loop of `src/crc64.rs`: XOR together the rows of
`mat` selected by the set bits of `vec`, walking `vec` from the low bit.
The matrix is modelled as the function from row index to row value. -/
def gf2TimesAux (mat : Nat → Nat) (vec idx : Nat) : Nat :=
  if _h : vec = 0 then 0
  else (if vec &&& 1 = 1 then mat idx else 0) ^^^ gf2TimesAux mat (vec >>> 1) (idx + 1)
termination_by vec
decreasing_by
  simp only [Nat.shiftRight_one]
  omega

/-- `gf2_matrix_times(mat, vec)`. -/
def gf2MatrixTimes (mat : Nat → Nat) (vec : Nat) : Nat := gf2TimesAux mat vec 0

/-- `gf2_matrix_square(square, mat)`: row `n` of the result is
`gf2_matrix_times(mat, mat[n])`. -/
def gf2MatrixSquare (mat : Nat → Nat) : Nat → Nat :=
  fun n => gf2MatrixTimes mat (mat n)

/-- The initial matrix built by `combine`: row 0 is `POLY`, row `i + 1` is
the single bit `2 ^ i` (the variable `row` doubling as the loop walks). -/
def combineInitMat : Nat → Nat
  | 0 => POLY
  | i + 1 => 2 ^ i

/-- The main loop of `combine`: the two unrolled half-iterations that square
the current matrix, conditionally apply it to `crc` depending on the low bit
of `len`, and shift `len` down, stopping as soon as `len` reaches 0. -/
def combineLoop (mat1 : Nat → Nat) (crc len : Nat) : Nat :=
  let mat2 := gf2MatrixSquare mat1
  let crc1 := if len &&& 1 = 1 then gf2MatrixTimes mat2 crc else crc
  let len1 := len >>> 1
  if _h1 : len1 = 0 then crc1
  else
    let mat1x := gf2MatrixSquare mat2
    let crc2 := if len1 &&& 1 = 1 then gf2MatrixTimes mat1x crc1 else crc1
    let len2 := len1 >>> 1
    if _h2 : len2 = 0 then crc2
    else combineLoop mat1x crc2 len2
termination_by len
decreasing_by
  simp only [Nat.shiftRight_one] at *
  omega

/-- `combine(crc_a, crc_b, len_b)` from `src/crc64.rs`: if `len_b == 0`
return `crc_a`; otherwise build the one-zero-bit operator matrix, square it
twice before entering the loop, run the loop, and XOR with `crc_b`. -/
def combine (crcA crcB lenB : Nat) : Nat :=
  if lenB = 0 then crcA
  else
    let mat1 := gf2MatrixSquare (gf2MatrixSquare combineInitMat)
    combineLoop mat1 crcA lenB ^^^ crcB

end Crc64

namespace Crc64

/-! ### Linearity of the CRC step over GF(2) -/

theorem xor_mod_two (a b : Nat) : (a ^^^ b) % 2 = a % 2 ^^^ b % 2 := by
  rw [Nat.xor_mod_two_eq]
  rcases Nat.mod_two_eq_zero_or_one a with ha | ha <;>
    rcases Nat.mod_two_eq_zero_or_one b with hb | hb <;>
      rw [ha, hb]
  · have : (0 : Nat) ^^^ 0 = 0 := rfl
    rw [this]; omega
  · have : (0 : Nat) ^^^ 1 = 1 := rfl
    rw [this]; omega
  · have : (1 : Nat) ^^^ 0 = 1 := rfl
    rw [this]; omega
  · have : (1 : Nat) ^^^ 1 = 0 := rfl
    rw [this]; omega

theorem shiftRight_xor (a b k : Nat) : (a ^^^ b) >>> k = a >>> k ^^^ b >>> k := by
  apply Nat.eq_of_testBit_eq
  intro i
  simp [Nat.testBit_shiftRight, Nat.testBit_xor]

theorem crcStep_xor (a b : Nat) : crcStep (a ^^^ b) = crcStep a ^^^ crcStep b := by
  unfold crcStep
  have hx : (a ^^^ b) >>> 1 = a >>> 1 ^^^ b >>> 1 := shiftRight_xor a b 1
  rw [Nat.and_one_is_mod, Nat.and_one_is_mod, Nat.and_one_is_mod, xor_mod_two]
  rcases Nat.mod_two_eq_zero_or_one a with ha | ha <;>
    rcases Nat.mod_two_eq_zero_or_one b with hb | hb <;>
      simp only [ha, hb] <;> norm_num
  · exact hx
  · rw [hx, Nat.xor_assoc]
  · rw [hx, Nat.xor_assoc, Nat.xor_comm (b >>> 1) POLY, ← Nat.xor_assoc]
  · rw [hx, Nat.xor_assoc (a >>> 1) POLY, Nat.xor_comm POLY (b >>> 1 ^^^ POLY),
      Nat.xor_assoc (b >>> 1) POLY POLY, Nat.xor_self, Nat.xor_zero]

theorem crcStep_zero : crcStep 0 = 0 := by decide

theorem crcStep_lt {a : Nat} (h : a < 2 ^ 64) : crcStep a < 2 ^ 64 := by
  unfold crcStep
  have h1 : a >>> 1 < 2 ^ 64 := by
    rw [Nat.shiftRight_one]
    omega
  split
  · exact Nat.xor_lt_two_pow h1 (by unfold POLY; norm_num)
  · exact h1

theorem crcStepN_xor (n a b : Nat) :
    crcStep^[n] (a ^^^ b) = crcStep^[n] a ^^^ crcStep^[n] b := by
  induction n generalizing a b with
  | zero => rfl
  | succ n ih =>
    rw [Function.iterate_succ_apply, Function.iterate_succ_apply,
      Function.iterate_succ_apply, crcStep_xor, ih]

theorem crcStepN_zero (n : Nat) : crcStep^[n] 0 = 0 := by
  induction n with
  | zero => rfl
  | succ n ih => rw [Function.iterate_succ_apply, crcStep_zero, ih]

theorem crcStepN_lt (n : Nat) {a : Nat} (h : a < 2 ^ 64) : crcStep^[n] a < 2 ^ 64 := by
  induction n generalizing a with
  | zero => exact h
  | succ n ih => rw [Function.iterate_succ_apply]; exact ih (crcStep_lt h)

theorem crcStep_even {a : Nat} (h : a % 2 = 0) : crcStep a = a >>> 1 := by
  unfold crcStep
  rw [Nat.and_one_is_mod, h]
  simp

/-- Feeding k zero bits through the step operator shifts the register down. -/
theorem crcStepN_two_pow_mul (k x : Nat) : crcStep^[k] (2 ^ k * x) = x := by
  induction k generalizing x with
  | zero => simp
  | succ k ih =>
    have h2 : 2 ^ (k + 1) * x = 2 * (2 ^ k * x) := by ring
    rw [Function.iterate_succ_apply, h2, crcStep_even (Nat.mul_mod_right 2 _)]
    have h3 : (2 * (2 ^ k * x)) >>> 1 = 2 ^ k * x := by
      rw [Nat.shiftRight_one]
      omega
    rw [h3, ih]

/-! ### Disjoint-bit additions -/

theorem xor_eq_add_of_lt (i a b : Nat) (hb : b < 2 ^ i) :
    2 ^ i * a ^^^ b = 2 ^ i * a + b := by
  rw [Nat.mul_add_lt_is_or hb]
  apply Nat.eq_of_testBit_eq
  intro j
  rw [Nat.testBit_xor, Nat.testBit_or]
  rcases Nat.lt_or_ge j i with hj | hj
  · rw [Nat.testBit_mul_pow_two]
    simp [Nat.not_le.mpr hj]
  · have hbj : Nat.testBit b j = false :=
      Nat.testBit_lt_two_pow (lt_of_lt_of_le hb (Nat.pow_le_pow_right (by omega) hj))
    rw [hbj]
    cases Nat.testBit (2 ^ i * a) j <;> rfl

/-- Eight step rounds are exactly one table lookup plus a byte shift. -/
theorem crcStepN8_eq (crc : Nat) :
    crcStep^[8] crc = TABLE (crc &&& 255) ^^^ (crc >>> 8) := by
  have hd : crc = 2 ^ 8 * (crc >>> 8) ^^^ (crc &&& 255) := by
    rw [xor_eq_add_of_lt 8 (crc >>> 8) (crc &&& 255)
      (Nat.and_lt_two_pow crc (by norm_num))]
    rw [Nat.shiftRight_eq_div_pow]
    have h255 : (255 : Nat) = 2 ^ 8 - 1 := by norm_num
    rw [h255, Nat.and_pow_two_sub_one_eq_mod]
    exact (Nat.div_add_mod crc (2 ^ 8)).symm
  calc crcStep^[8] crc
      = crcStep^[8] (2 ^ 8 * (crc >>> 8) ^^^ (crc &&& 255)) := by rw [← hd]
    _ = crcStep^[8] (2 ^ 8 * (crc >>> 8)) ^^^ crcStep^[8] (crc &&& 255) :=
        crcStepN_xor 8 _ _
    _ = (crc >>> 8) ^^^ TABLE (crc &&& 255) := by
        rw [crcStepN_two_pow_mul]; rfl
    _ = TABLE (crc &&& 255) ^^^ (crc >>> 8) := Nat.xor_comm _ _

end Crc64

namespace Crc64

/-! ### The update loop is affine in the running value -/

theorem update_cons (crc : Nat) (b : Byte) (B : List Byte) :
    update crc (b :: B) = update (updateStep crc b) B := rfl

theorem updateStep_eq (crc : Nat) (b : Byte) :
    updateStep crc b = crcStep^[8] (crc ^^^ b.val) := by
  rw [crcStepN8_eq]
  unfold updateStep
  have hb8 : b.val >>> 8 = 0 := by
    rw [Nat.shiftRight_eq_div_pow]
    exact Nat.div_eq_of_lt b.isLt
  rw [shiftRight_xor, hb8, Nat.xor_zero]

theorem updateStep_affine (crc : Nat) (b : Byte) :
    updateStep crc b = crcStep^[8] crc ^^^ updateStep 0 b := by
  rw [updateStep_eq, updateStep_eq, crcStepN_xor, Nat.zero_xor]

theorem update_affine (B : List Byte) (crc : Nat) :
    update crc B = crcStep^[8 * B.length] crc ^^^ update 0 B := by
  induction B generalizing crc with
  | nil => simp [update]
  | cons b B ih =>
    rw [update_cons, ih (updateStep crc b), updateStep_affine, crcStepN_xor]
    have hr : update 0 (b :: B) =
        crcStep^[8 * B.length] (updateStep 0 b) ^^^ update 0 B := by
      rw [update_cons, ih (updateStep 0 b)]
    rw [hr, ← Function.iterate_add_apply]
    have hlen : 8 * B.length + 8 = 8 * (b :: B).length := by
      simp [List.length_cons]
      ring
    rw [hlen, Nat.xor_assoc]

theorem update_append (crc : Nat) (A B : List Byte) :
    update crc (A ++ B) = update (update crc A) B := by
  simp [update, List.foldl_append]

theorem checksum_append (A B : List Byte) :
    checksum (A ++ B) = crcStep^[8 * B.length] (checksum A) ^^^ checksum B := by
  unfold checksum
  rw [update_append 0 A B]
  exact update_affine B (update 0 A)

theorem updateStep_lt {crc : Nat} (h : crc < 2 ^ 64) (b : Byte) :
    updateStep crc b < 2 ^ 64 := by
  rw [updateStep_eq]
  exact crcStepN_lt 8 (Nat.xor_lt_two_pow h (lt_trans b.isLt (by norm_num)))

theorem update_lt (B : List Byte) {crc : Nat} (h : crc < 2 ^ 64) :
    update crc B < 2 ^ 64 := by
  induction B generalizing crc with
  | nil => exact h
  | cons b B ih => rw [update_cons]; exact ih (updateStep_lt h b)

theorem checksum_lt (A : List Byte) : checksum A < 2 ^ 64 :=
  update_lt A (by norm_num)

/-! ### Correctness of the GF(2) matrix machinery -/

theorem gf2TimesAux_eq (m : Nat → Nat) (k : Nat)
    (hm : ∀ i, i < 64 → m i = crcStep^[k] (2 ^ i)) :
    ∀ vec idx, vec * 2 ^ idx < 2 ^ 64 →
      gf2TimesAux m vec idx = crcStep^[k] (vec * 2 ^ idx) := by
  intro vec
  induction vec using Nat.strong_induction_on with
  | _ vec ih =>
    intro idx hb
    by_cases hv : vec = 0
    · subst hv
      rw [gf2TimesAux]
      simp [crcStepN_zero]
    · rw [gf2TimesAux, dif_neg hv]
      have hvd : vec >>> 1 = vec / 2 := Nat.shiftRight_one vec
      have hrec : (vec >>> 1) * 2 ^ (idx + 1) ≤ vec * 2 ^ idx := by
        rw [hvd, Nat.pow_succ]
        calc vec / 2 * (2 ^ idx * 2) = vec / 2 * 2 * 2 ^ idx := by ring
          _ ≤ vec * 2 ^ idx := Nat.mul_le_mul_right _ (by omega)
      have hihb : (vec >>> 1) * 2 ^ (idx + 1) < 2 ^ 64 := lt_of_le_of_lt hrec hb
      rw [ih (vec >>> 1) (by rw [hvd]; omega) (idx + 1) hihb]
      rw [Nat.and_one_is_mod]
      rcases Nat.mod_two_eq_zero_or_one vec with h0 | h0
      · rw [if_neg (by omega)]
        have hsplit : vec * 2 ^ idx = (vec >>> 1) * 2 ^ (idx + 1) := by
          rw [hvd, Nat.pow_succ]
          have hv2 : vec = 2 * (vec / 2) := by omega
          calc vec * 2 ^ idx = 2 * (vec / 2) * 2 ^ idx := by rw [← hv2]
            _ = vec / 2 * (2 ^ idx * 2) := by ring
        rw [Nat.zero_xor, hsplit]
      · rw [if_pos h0]
        have hidx : idx < 64 := by
          by_contra hx
          push_neg at hx
          have h1 : 2 ^ 64 ≤ 2 ^ idx := Nat.pow_le_pow_right (by norm_num) hx
          have h2 : 2 ^ idx ≤ vec * 2 ^ idx := by
            calc 2 ^ idx = 1 * 2 ^ idx := by ring
              _ ≤ vec * 2 ^ idx := Nat.mul_le_mul_right _ (by omega)
          omega
        rw [hm idx hidx]
        have hsplit : vec * 2 ^ idx = 2 ^ (idx + 1) * (vec >>> 1) ^^^ 2 ^ idx := by
          rw [xor_eq_add_of_lt (idx + 1) (vec >>> 1) (2 ^ idx)
            (by have hp : 0 < 2 ^ idx := Nat.two_pow_pos idx
                rw [Nat.pow_succ]
                omega)]
          rw [hvd, Nat.pow_succ]
          have hv2 : vec = 2 * (vec / 2) + 1 := by omega
          calc vec * 2 ^ idx = (2 * (vec / 2) + 1) * 2 ^ idx := by rw [← hv2]
            _ = 2 ^ idx * 2 * (vec / 2) + 2 ^ idx := by ring
        rw [hsplit, crcStepN_xor, Nat.mul_comm (2 ^ (idx + 1)) (vec >>> 1)]
        exact Nat.xor_comm _ _

theorem gf2MatrixTimes_eq (m : Nat → Nat) (k : Nat)
    (hm : ∀ i, i < 64 → m i = crcStep^[k] (2 ^ i))
    (vec : Nat) (hv : vec < 2 ^ 64) :
    gf2MatrixTimes m vec = crcStep^[k] vec := by
  have h := gf2TimesAux_eq m k hm vec 0 (by simpa)
  simpa [gf2MatrixTimes] using h

theorem gf2MatrixSquare_rep (m : Nat → Nat) (k : Nat)
    (hm : ∀ i, i < 64 → m i = crcStep^[k] (2 ^ i)) :
    ∀ i, i < 64 → gf2MatrixSquare m i = crcStep^[k + k] (2 ^ i) := by
  intro i hi
  unfold gf2MatrixSquare
  rw [hm i hi]
  rw [gf2MatrixTimes_eq m k hm _
    (crcStepN_lt k (Nat.pow_lt_pow_right (by norm_num) hi))]
  rw [← Function.iterate_add_apply]

theorem combineInitMat_rep :
    ∀ i, i < 64 → combineInitMat i = crcStep^[1] (2 ^ i) := by
  intro i _
  match i with
  | 0 =>
    show POLY = crcStep^[1] (2 ^ 0)
    rw [Function.iterate_one]
    decide
  | i + 1 =>
    show 2 ^ i = crcStep^[1] (2 ^ (i + 1))
    rw [Function.iterate_one, crcStep_even (by rw [Nat.pow_succ]; omega)]
    rw [Nat.shiftRight_one, Nat.pow_succ]
    omega

end Crc64

namespace Crc64

theorem condTimes_eq (m : Nat → Nat) (K b x : Nat)
    (hm : ∀ i, i < 64 → m i = crcStep^[K] (2 ^ i))
    (hb : b = 0 ∨ b = 1) (hx : x < 2 ^ 64) :
    (if b = 1 then gf2MatrixTimes m x else x) = crcStep^[K * b] x := by
  rcases hb with hb | hb <;> subst hb
  · simp
  · rw [if_pos rfl, gf2MatrixTimes_eq m K hm x hx, Nat.mul_one]

theorem and_one_cases (n : Nat) : n &&& 1 = 0 ∨ n &&& 1 = 1 := by
  rw [Nat.and_one_is_mod]
  omega

/-- One unrolled iteration of the combine loop, with the let bindings of the
definition expanded. -/
theorem combineLoop_unfold (mat1 : Nat → Nat) (crc len : Nat) :
    combineLoop mat1 crc len =
      if _h1 : len >>> 1 = 0 then
        (if len &&& 1 = 1 then gf2MatrixTimes (gf2MatrixSquare mat1) crc else crc)
      else if _h2 : (len >>> 1) >>> 1 = 0 then
        (if (len >>> 1) &&& 1 = 1 then
           gf2MatrixTimes (gf2MatrixSquare (gf2MatrixSquare mat1))
             (if len &&& 1 = 1 then gf2MatrixTimes (gf2MatrixSquare mat1) crc else crc)
         else (if len &&& 1 = 1 then gf2MatrixTimes (gf2MatrixSquare mat1) crc else crc))
      else
        combineLoop (gf2MatrixSquare (gf2MatrixSquare mat1))
          (if (len >>> 1) &&& 1 = 1 then
             gf2MatrixTimes (gf2MatrixSquare (gf2MatrixSquare mat1))
               (if len &&& 1 = 1 then gf2MatrixTimes (gf2MatrixSquare mat1) crc else crc)
           else (if len &&& 1 = 1 then gf2MatrixTimes (gf2MatrixSquare mat1) crc else crc))
          ((len >>> 1) >>> 1) := by
  rw [combineLoop]

theorem combineLoop_eq (len : Nat) : ∀ (m : Nat → Nat) (k crc : Nat),
    len ≠ 0 → (∀ i, i < 64 → m i = crcStep^[k] (2 ^ i)) → crc < 2 ^ 64 →
    combineLoop m crc len = crcStep^[2 * k * len] crc := by
  induction len using Nat.strong_induction_on with
  | _ len ih =>
    intro m k crc hlen hm hcrc
    have hm2 := gf2MatrixSquare_rep m k hm
    have hm4 := gf2MatrixSquare_rep _ (k + k) hm2
    have hc1 := condTimes_eq (gf2MatrixSquare m) (k + k) (len &&& 1) crc hm2
      (and_one_cases len) hcrc
    have hc1lt : crcStep^[(k + k) * (len &&& 1)] crc < 2 ^ 64 := crcStepN_lt _ hcrc
    have hc2 := condTimes_eq (gf2MatrixSquare (gf2MatrixSquare m)) ((k + k) + (k + k))
      ((len >>> 1) &&& 1) _ hm4 (and_one_cases (len >>> 1)) hc1lt
    rw [combineLoop_unfold]
    rw [hc1, hc2, ← Function.iterate_add_apply]
    by_cases h1 : len >>> 1 = 0
    · rw [dif_pos h1]
      have hl : len = 1 := by
        rw [Nat.shiftRight_one] at h1
        omega
      have hb0 : len &&& 1 = 1 := by
        rw [Nat.and_one_is_mod, hl]
      have he : (k + k) * (len &&& 1) = 2 * k * len := by
        rw [hb0]
        conv_rhs => rw [hl]
        ring
      rw [he]
    · rw [dif_neg h1]
      by_cases h2 : (len >>> 1) >>> 1 = 0
      · rw [dif_pos h2]
        have hb1 : (len >>> 1) &&& 1 = 1 := by
          rw [Nat.and_one_is_mod]
          rw [Nat.shiftRight_one] at *
          omega
        have hl : len = 2 + (len &&& 1) := by
          rw [Nat.and_one_is_mod]
          rw [Nat.shiftRight_one] at h1 h2
          omega
        have he : ((k + k) + (k + k)) * ((len >>> 1) &&& 1) + (k + k) * (len &&& 1)
            = 2 * k * len := by
          rw [hb1]
          conv_rhs => rw [hl]
          ring
        rw [he]
      · rw [dif_neg h2]
        have hlt : (len >>> 1) >>> 1 < len := by
          rw [Nat.shiftRight_one, Nat.shiftRight_one]
          omega
        rw [ih _ hlt _ ((k + k) + (k + k)) _ h2 hm4 (crcStepN_lt _ hcrc)]
        rw [← Function.iterate_add_apply]
        have hl : len = 4 * ((len >>> 1) >>> 1) + 2 * ((len >>> 1) &&& 1)
            + (len &&& 1) := by
          rw [Nat.and_one_is_mod, Nat.and_one_is_mod]
          rw [Nat.shiftRight_one, Nat.shiftRight_one]
          omega
        have he : 2 * ((k + k) + (k + k)) * ((len >>> 1) >>> 1)
            + (((k + k) + (k + k)) * ((len >>> 1) &&& 1) + (k + k) * (len &&& 1))
            = 2 * k * len := by
          conv_rhs => rw [hl]
          ring
        rw [he]

theorem combine_eq (crcA crcB lenB : Nat) (ha : crcA < 2 ^ 64) (hl : lenB ≠ 0) :
    combine crcA crcB lenB = crcStep^[8 * lenB] crcA ^^^ crcB := by
  unfold combine
  rw [if_neg hl]
  show combineLoop (gf2MatrixSquare (gf2MatrixSquare combineInitMat)) crcA lenB ^^^ crcB = _
  have hm2 := gf2MatrixSquare_rep combineInitMat 1 combineInitMat_rep
  have hm4 := gf2MatrixSquare_rep _ (1 + 1) hm2
  rw [combineLoop_eq lenB _ ((1 + 1) + (1 + 1)) crcA hl hm4 ha]

end Crc64

namespace Crc64

/-! ### Checksum-level correctness of combine and update chaining -/

theorem combine_checksum (A B : List Byte) :
    combine (checksum A) (checksum B) B.length = checksum (A ++ B) := by
  by_cases hb : B.length = 0
  · have hBnil : B = [] := List.length_eq_zero.mp hb
    subst hBnil
    rw [List.append_nil]
    unfold combine
    rw [if_pos hb]
  · rw [combine_eq _ _ _ (checksum_lt A) hb, checksum_append]

theorem combine_fold (p : List Byte) (ps : List (List Byte)) :
    ps.foldl (fun acc q => combine acc (checksum q) q.length) (checksum p)
      = checksum (p :: ps).flatten := by
  induction ps generalizing p with
  | nil => simp
  | cons q ps ih =>
    show ps.foldl _ (combine (checksum p) (checksum q) q.length) = _
    rw [combine_checksum, ih (p ++ q)]
    simp [List.append_assoc]

theorem update_foldl (chunks : List (List Byte)) (crc : Nat) :
    chunks.foldl update crc = update crc chunks.flatten := by
  induction chunks generalizing crc with
  | nil => rfl
  | cons x xs ih =>
    show xs.foldl update (update crc x) = _
    rw [ih, ← update_append, List.flatten_cons]

end Crc64

/-! ## Claim C1 and C2 -/

/-- C1: for all byte sequences A and B,
`combine(checksum(A), checksum(B), len(B)) == checksum(A ++ B)`; when
`len_b == 0` the call returns `crc_a` unchanged for any inputs; and folding
any further parts left-to-right through `combine`, each with its exact byte
length, yields the checksum of the full concatenation. -/
theorem C1_combine_correct :
    (∀ A B : List Crc64.Byte,
        Crc64.combine (Crc64.checksum A) (Crc64.checksum B) B.length
          = Crc64.checksum (A ++ B))
    ∧ (∀ crcA crcB : Nat, Crc64.combine crcA crcB 0 = crcA)
    ∧ (∀ (p : List Crc64.Byte) (ps : List (List Crc64.Byte)),
        ps.foldl (fun acc q => Crc64.combine acc (Crc64.checksum q) q.length)
            (Crc64.checksum p)
          = Crc64.checksum (p :: ps).flatten) := by
  refine ⟨Crc64.combine_checksum, ?_, Crc64.combine_fold⟩
  intro crcA crcB
  unfold Crc64.combine
  rw [if_pos rfl]

/-- C2: folding `update` over the chunks of any partition of a byte
sequence into contiguous chunks, starting from 0, equals `checksum` of the
concatenation; `checksum(x) == update(0, x)`; and `checksum(empty) == 0`. -/
theorem C2_update_chaining :
    (∀ chunks : List (List Crc64.Byte),
        chunks.foldl Crc64.update 0 = Crc64.checksum chunks.flatten)
    ∧ (∀ x : List Crc64.Byte, Crc64.checksum x = Crc64.update 0 x)
    ∧ Crc64.checksum [] = 0 := by
  refine ⟨fun chunks => ?_, fun _ => rfl, rfl⟩
  rw [Crc64.update_foldl]
  rfl

namespace Client

/-- Outcome of dispatching a single HTTP attempt: either a response with a
status code, or a transport error with its `is_timeout`/`is_connect` flags. -/
inductive AttemptOutcome where
  | response (status : Nat)
  | transportError (isTimeout isConnect : Bool)
deriving DecidableEq

/-- The error variants produced by `execute_inner` in `src/client.rs`. -/
inductive ExecError where
  | serviceError (status : Nat)
  | httpError (isTimeout isConnect : Bool)
  | retryExhausted (attempts : Nat) (last : ExecError)
  | authError (msg : String)
deriving DecidableEq

/-- `reqwest::StatusCode::is_success`: 2xx. -/
def isSuccess (s : Nat) : Bool := decide (200 ≤ s ∧ s ≤ 299)

/-- `reqwest::StatusCode::is_server_error`: 5xx. -/
def isServerError (s : Nat) : Bool := decide (500 ≤ s ∧ s ≤ 599)

/-- `OssClient::is_retryable_error`: `err.is_timeout() || err.is_connect()`. -/
def isRetryableError (isTimeout isConnect : Bool) : Bool := isTimeout || isConnect

instance : DecidableEq (Except ExecError Nat) := fun x y =>
  match x, y with
  | .ok a, .ok b =>
    if h : a = b then .isTrue (by rw [h])
    else .isFalse (by intro hh; injection hh; contradiction)
  | .error a, .error b =>
    if h : a = b then .isTrue (by rw [h])
    else .isFalse (by intro hh; injection hh; contradiction)
  | .ok _, .error _ => .isFalse (by intro hh; exact Except.noConfusion hh)
  | .error _, .ok _ => .isFalse (by intro hh; exact Except.noConfusion hh)

/-- Result of the executor: the returned value (`Ok` carries the successful
status) together with the number of attempts actually dispatched. -/
structure ExecResult where
  result : Except ExecError Nat
  attempts : Nat
deriving DecidableEq

/-- The `for attempt in 0..max_attempts` loop of `execute_inner`, driven by
the remaining iteration count `fuel` (initially `max_attempts`). Per
iteration: a 5xx response with budget left records the error and continues; a
non-2xx response returns the parsed service error; a 2xx returns success; a
retryable transport error with budget left records and continues; any other
transport error is returned. Falling off the loop produces `RetryExhausted`
wrapping the last error (or a generic auth error when none was recorded). -/
def execFrom (outcomes : Nat → AttemptOutcome) (maxAttempts : Nat) :
    Nat → Nat → Option ExecError → ExecResult
  | 0, attempt, lastErr =>
    { result := .error (.retryExhausted maxAttempts
        (match lastErr with
         | some e => e
         | none => .authError ("unknown error"))),
      attempts := attempt }
  | fuel + 1, attempt, _lastErr =>
    match outcomes attempt with
    | .response s =>
      if isServerError s && decide (attempt + 1 < maxAttempts) then
        execFrom outcomes maxAttempts fuel (attempt + 1) (some (.serviceError s))
      else if !isSuccess s then
        { result := .error (.serviceError s), attempts := attempt + 1 }
      else
        { result := .ok s, attempts := attempt + 1 }
    | .transportError t c =>
      if isRetryableError t c && decide (attempt + 1 < maxAttempts) then
        execFrom outcomes maxAttempts fuel (attempt + 1) (some (.httpError t c))
      else
        { result := .error (.httpError t c), attempts := attempt + 1 }

/-- `execute_inner`: determine re-sendability up front (`can_retry`), set the
attempt budget to `max_retries + 1` for a re-sendable body and `1`
otherwise, then run the attempt loop. -/
def executeInner (canRetry : Bool) (maxRetries : Nat)
    (outcomes : Nat → AttemptOutcome) : ExecResult :=
  let maxAttempts := if canRetry then maxRetries + 1 else 1
  execFrom outcomes maxAttempts maxAttempts 0 none

/-- `2u32.saturating_pow(k)`. -/
def pow2sat (k : Nat) : Nat := min (2 ^ k) (2 ^ 32 - 1)

/-- The deterministic jitter numerator of `execute_inner`:
`(url_str.len() as u64 * attempt as u64) % 50 + 50`. -/
def jitterNumer (urlLen attempt : Nat) : Nat := urlLen * attempt % 50 + 50

/-- The backoff delay in milliseconds slept before retry `attempt`
(1-indexed), for whole-millisecond delays:
`capped.as_millis() * jitter_numer / 100` where
`capped = min(base_delay * 2u32.saturating_pow(attempt - 1), max_delay)`. -/
def computeDelayMs (baseMs maxMs urlLen attempt : Nat) : Nat :=
  min (baseMs * pow2sat (attempt - 1)) maxMs * jitterNumer urlLen attempt / 100

/-- Modelled from the spec (§4.4): the delay formula as the spec states it,
`min(base_delay * 2^(n-1), max_delay)` scaled by the jitter factor, with an
exact (non-saturating) power of two. -/
def claimedDelayMs (baseMs maxMs urlLen attempt : Nat) : Nat :=
  min (baseMs * 2 ^ (attempt - 1)) maxMs * jitterNumer urlLen attempt / 100

end Client

namespace Client

/-- Classification of an attempt outcome as retryable: a 5xx response, or a
timeout/connect transport error. -/
def retryableOutcome : AttemptOutcome → Bool
  | .response s => isServerError s
  | .transportError t c => isRetryableError t c

/-- The error recorded in `last_err` for a retryable outcome. -/
def outcomeErr : AttemptOutcome → ExecError
  | .response s => .serviceError s
  | .transportError t c => .httpError t c

theorem not_success_of_server {s : Nat} (h : isServerError s = true) :
    isSuccess s = false := by
  simp only [isServerError, decide_eq_true_eq] at h
  simp only [isSuccess, decide_eq_false_iff_not]
  omega

/-- Unfolding step: a retryable outcome with budget remaining continues the
loop at the next attempt index with the outcome recorded as last error. -/
theorem execFrom_step (o : Nat → AttemptOutcome) (M fuel attempt : Nat)
    (le : Option ExecError) (h : retryableOutcome (o attempt) = true)
    (hb : attempt + 1 < M) :
    execFrom o M (fuel + 1) attempt le
      = execFrom o M fuel (attempt + 1) (some (outcomeErr (o attempt))) := by
  cases ho : o attempt with
  | response s =>
    rw [ho] at h
    simp only [retryableOutcome] at h
    simp [execFrom, ho, h, hb, outcomeErr]
  | transportError t c =>
    rw [ho] at h
    simp only [retryableOutcome] at h
    simp [execFrom, ho, h, hb, outcomeErr]

/-- Unfolding: a 2xx response returns success at once. -/
theorem execFrom_base_success (o : Nat → AttemptOutcome) (M fuel attempt : Nat)
    (le : Option ExecError) (s : Nat) (ho : o attempt = .response s)
    (hs : isSuccess s = true) :
    execFrom o M (fuel + 1) attempt le = ⟨.ok s, attempt + 1⟩ := by
  have hns : isServerError s = false := by
    simp only [isSuccess, decide_eq_true_eq] at hs
    simp only [isServerError, decide_eq_false_iff_not]
    omega
  simp [execFrom, ho, hns, hs]

/-- Unfolding: a non-2xx response without retry budget (or not 5xx) is
returned as a service error at once. -/
theorem execFrom_base_service (o : Nat → AttemptOutcome) (M fuel attempt : Nat)
    (le : Option ExecError) (s : Nat) (ho : o attempt = .response s)
    (hs : isSuccess s = false)
    (hnr : isServerError s = false ∨ ¬ attempt + 1 < M) :
    execFrom o M (fuel + 1) attempt le
      = ⟨.error (.serviceError s), attempt + 1⟩ := by
  rcases hnr with hnr | hnr
  · simp [execFrom, ho, hnr, hs]
  · simp [execFrom, ho, hnr, hs]

/-- Unfolding: a transport error that is not retryable here is returned. -/
theorem execFrom_base_transport (o : Nat → AttemptOutcome) (M fuel attempt : Nat)
    (le : Option ExecError) (t c : Bool) (ho : o attempt = .transportError t c)
    (hnr : isRetryableError t c = false ∨ ¬ attempt + 1 < M) :
    execFrom o M (fuel + 1) attempt le
      = ⟨.error (.httpError t c), attempt + 1⟩ := by
  rcases hnr with hnr | hnr
  · simp [execFrom, ho, hnr]
  · simp [execFrom, ho, hnr]

theorem execFrom_attempts_le (o : Nat → AttemptOutcome) (M : Nat) :
    ∀ fuel attempt le, (execFrom o M fuel attempt le).attempts ≤ attempt + fuel := by
  intro fuel
  induction fuel with
  | zero =>
    intro attempt le
    simp [execFrom]
  | succ fuel ih =>
    intro attempt le
    by_cases hr : retryableOutcome (o attempt) = true ∧ attempt + 1 < M
    · rw [execFrom_step o M fuel attempt le hr.1 hr.2]
      calc (execFrom o M fuel (attempt + 1) _).attempts
          ≤ attempt + 1 + fuel := ih (attempt + 1) _
        _ = attempt + (fuel + 1) := by omega
    · push_neg at hr
      cases ho : o attempt with
      | response s =>
        by_cases hs : isSuccess s = true
        · rw [execFrom_base_success o M fuel attempt le s ho hs]
          show attempt + 1 ≤ attempt + (fuel + 1)
          omega
        · have hd : isServerError s = false ∨ ¬ attempt + 1 < M := by
            by_cases hsrv : isServerError s = true
            · exact Or.inr (Nat.not_lt.mpr (hr (by rw [ho]; simpa [retryableOutcome] using hsrv)))
            · exact Or.inl (by simpa using hsrv)
          rw [execFrom_base_service o M fuel attempt le s ho (by simpa using hs) hd]
          show attempt + 1 ≤ attempt + (fuel + 1)
          omega
      | transportError t c =>
        have hd : isRetryableError t c = false ∨ ¬ attempt + 1 < M := by
          by_cases hrt : isRetryableError t c = true
          · exact Or.inr (Nat.not_lt.mpr (hr (by rw [ho]; simpa [retryableOutcome] using hrt)))
          · exact Or.inl (by simpa using hrt)
        rw [execFrom_base_transport o M fuel attempt le t c ho hd]
        show attempt + 1 ≤ attempt + (fuel + 1)
        omega

/-- Any run of `k` retryable outcomes followed by a 2xx succeeds with that
status after exactly `k + 1` attempts, while budget remains. -/
theorem execFrom_success_after (o : Nat → AttemptOutcome) (M : Nat) (s : Nat)
    (hss : isSuccess s = true) :
    ∀ (k attempt fuel : Nat) (le : Option ExecError), attempt + fuel = M →
      attempt + k < M →
      (∀ i, i < k → retryableOutcome (o (attempt + i)) = true) →
      o (attempt + k) = .response s →
      execFrom o M fuel attempt le = ⟨.ok s, attempt + k + 1⟩ := by
  intro k
  induction k with
  | zero =>
    intro attempt fuel le hMf hkM _hr ho
    rw [Nat.add_zero] at ho hkM
    cases fuel with
    | zero => exact ((by omega : False)).elim
    | succ fuel => exact execFrom_base_success o M fuel attempt le s ho hss
  | succ k ih =>
    intro attempt fuel le hMf hkM hr ho
    cases fuel with
    | zero => exact ((by omega : False)).elim
    | succ fuel =>
      rw [execFrom_step o M fuel attempt le
        (by simpa using hr 0 (by omega)) (by omega)]
      have hshift : ∀ i, attempt + 1 + i = attempt + (i + 1) := by intro i; omega
      rw [ih (attempt + 1) fuel _ (by omega) (by omega)
        (fun i hi => by rw [hshift i]; exact hr (i + 1) (by omega))
        (by rw [hshift k]; exact ho)]
      have : attempt + 1 + k + 1 = attempt + (k + 1) + 1 := by omega
      rw [this]

/-- When every attempt yields a 5xx response, the loop consumes the whole
budget and returns the last service error directly. -/
theorem execFrom_all5xx (o : Nat → AttemptOutcome) (M : Nat) (st : Nat → Nat)
    (ho : ∀ i, o i = .response (st i)) (hs : ∀ i, isServerError (st i) = true) :
    ∀ fuel attempt le, attempt + fuel = M → 1 ≤ fuel →
      execFrom o M fuel attempt le
        = ⟨.error (.serviceError (st (M - 1))), M⟩ := by
  intro fuel
  induction fuel with
  | zero => intro attempt le _ h1; omega
  | succ fuel ih =>
    intro attempt le hMf _
    by_cases hf : fuel = 0
    · subst hf
      rw [execFrom_base_service o M 0 attempt le (st attempt) (ho attempt)
        (not_success_of_server (hs attempt)) (Or.inr (by omega))]
      have h1 : st attempt = st (M - 1) := by
        have : attempt = M - 1 := by omega
        rw [this]
      have h2 : attempt + 1 = M := by omega
      rw [h1, h2]
    · rw [execFrom_step o M fuel attempt le
        (by rw [ho attempt]; simpa using hs attempt) (by omega)]
      exact ih (attempt + 1) _ (by omega) (by omega)

end Client

/-! ## Claims C4, C5, C6, C7 -/

/-- C4 counterexample: with responses [500, 500, 500], `max_retries = 2` and
a re-sendable body, the executor returns the bare final service error after
3 attempts, not the `RetryExhausted{attempts: 3}` wrapper the claim
requires. -/
theorem C4_counterexample :
    Client.executeInner true 2 (fun _ => .response 500)
        = ⟨.error (.serviceError 500), 3⟩
    ∧ Client.executeInner true 2 (fun _ => .response 500)
        ≠ ⟨.error (.retryExhausted 3 (.serviceError 500)), 3⟩ := by
  constructor
  · rfl
  · decide

/-- C4 (amended): when every attempt of a re-sendable request yields a 5xx
response and the budget is consumed, the executor makes `max_retries + 1`
attempts and reports the last observed service error directly; the
`RetryExhausted` wrapper after the loop is never produced in this case,
because the final iteration returns the parsed error itself. -/
theorem C4_amended (maxRetries : Nat) (st : Nat → Nat)
    (hs : ∀ i, Client.isServerError (st i) = true) :
    Client.executeInner true maxRetries (fun i => .response (st i))
      = ⟨.error (.serviceError (st maxRetries)), maxRetries + 1⟩ := by
  show Client.execFrom (fun i => .response (st i)) (maxRetries + 1)
    (maxRetries + 1) 0 none = _
  rw [Client.execFrom_all5xx (fun i => .response (st i)) (maxRetries + 1) st
    (fun _ => rfl) hs (maxRetries + 1) 0 none (by omega) (by omega)]
  have h1 : maxRetries + 1 - 1 = maxRetries := by omega
  rw [h1]

theorem C4_amended_witness :
    (∀ _i : Nat, Client.isServerError 500 = true)
    ∧ Client.executeInner true 2 (fun i => .response ((fun _ : Nat => 500) i))
        = ⟨.error (.serviceError 500), 3⟩ :=
  ⟨fun _ => by decide,
   C4_amended 2 (fun _ => 500)
     (fun _ => (by decide : Client.isServerError 500 = true))⟩

/-- C5: 5xx responses and timeout/connect transport errors are retried while
budget remains (so k retryable outcomes followed by a 2xx succeed after
exactly k + 1 attempts, and [500, 500, 200] with max_retries = 2 succeeds
after exactly 3 attempts); any other status response terminates after a
single attempt regardless of the policy, as does a transport error that is
neither timeout nor connect. -/
theorem C5_outcome_classification :
    (∀ (maxRetries k s : Nat) (o : Nat → Client.AttemptOutcome),
        k ≤ maxRetries → Client.isSuccess s = true →
        (∀ i, i < k → Client.retryableOutcome (o i) = true) →
        o k = .response s →
        Client.executeInner true maxRetries o = ⟨.ok s, k + 1⟩)
    ∧ (∀ (canRetry : Bool) (maxRetries s : Nat) (o : Nat → Client.AttemptOutcome),
        o 0 = .response s → Client.isSuccess s = false →
        Client.isServerError s = false →
        Client.executeInner canRetry maxRetries o
          = ⟨.error (.serviceError s), 1⟩)
    ∧ (∀ (canRetry : Bool) (maxRetries : Nat) (o : Nat → Client.AttemptOutcome),
        o 0 = .transportError false false →
        Client.executeInner canRetry maxRetries o
          = ⟨.error (.httpError false false), 1⟩)
    ∧ Client.executeInner true 2
        (fun i => if i < 2 then .response 500 else .response 200)
        = ⟨.ok 200, 3⟩ := by
  refine ⟨?_, ?_, ?_, by decide⟩
  · intro maxRetries k s o hk hs hr ho
    show Client.execFrom o (maxRetries + 1) (maxRetries + 1) 0 none = _
    have h := Client.execFrom_success_after o (maxRetries + 1) s hs k 0
      (maxRetries + 1) none (by omega) (by omega)
      (fun i hi => by simpa using hr i hi) (by simpa using ho)
    simpa using h
  · intro canRetry maxRetries s o ho hs hsrv
    cases canRetry
    · exact Client.execFrom_base_service o 1 0 0 none s ho hs (Or.inl hsrv)
    · exact Client.execFrom_base_service o (maxRetries + 1) maxRetries 0 none s ho hs
        (Or.inl hsrv)
  · intro canRetry maxRetries o ho
    cases canRetry
    · exact Client.execFrom_base_transport o 1 0 0 none false false ho
        (Or.inl (by decide))
    · exact Client.execFrom_base_transport o (maxRetries + 1) maxRetries 0 none
        false false ho (Or.inl (by decide))

theorem C5_witness :
    (2 ≤ 2 ∧ Client.isSuccess 200 = true
      ∧ (∀ i, i < 2 → Client.retryableOutcome
          ((fun j => if j < 2 then Client.AttemptOutcome.response 500
            else Client.AttemptOutcome.response 200) i) = true)
      ∧ (fun j => if j < 2 then Client.AttemptOutcome.response 500
          else Client.AttemptOutcome.response 200) 2
        = Client.AttemptOutcome.response 200)
    ∧ Client.executeInner true 2
        (fun j => if j < 2 then .response 500 else .response 200)
        = ⟨.ok 200, 3⟩ :=
  ⟨⟨by decide, by decide, by decide, by decide⟩,
    C5_outcome_classification.1 2 2 200
      (fun j => if j < 2 then Client.AttemptOutcome.response 500
        else Client.AttemptOutcome.response 200)
      (by decide) (by decide) (by decide) (by decide)⟩

/-- C6: a request whose body is not re-sendable makes exactly one attempt
regardless of the configured max_retries; with a re-sendable (or absent)
body the number of attempts never exceeds max_retries + 1. -/
theorem C6_attempt_budget :
    (∀ (maxRetries : Nat) (o : Nat → Client.AttemptOutcome),
        (Client.executeInner false maxRetries o).attempts = 1)
    ∧ (∀ (canRetry : Bool) (maxRetries : Nat) (o : Nat → Client.AttemptOutcome),
        (Client.executeInner canRetry maxRetries o).attempts ≤ maxRetries + 1) := by
  constructor
  · intro maxRetries o
    show (Client.execFrom o 1 1 0 none).attempts = 1
    cases ho : o 0 with
    | response s =>
      by_cases hs : Client.isSuccess s = true
      · rw [Client.execFrom_base_success o 1 0 0 none s ho hs]
      · rw [Client.execFrom_base_service o 1 0 0 none s ho (by simpa using hs)
          (Or.inr (by omega))]
    | transportError t c =>
      rw [Client.execFrom_base_transport o 1 0 0 none t c ho (Or.inr (by omega))]
  · intro canRetry maxRetries o
    cases canRetry
    · show (Client.execFrom o 1 1 0 none).attempts ≤ maxRetries + 1
      calc (Client.execFrom o 1 1 0 none).attempts
          ≤ 0 + 1 := Client.execFrom_attempts_le o 1 1 0 none
        _ ≤ maxRetries + 1 := by omega
    · show (Client.execFrom o (maxRetries + 1) (maxRetries + 1) 0 none).attempts
          ≤ maxRetries + 1
      calc (Client.execFrom o (maxRetries + 1) (maxRetries + 1) 0 none).attempts
          ≤ 0 + (maxRetries + 1) := Client.execFrom_attempts_le o _ _ 0 none
        _ = maxRetries + 1 := by omega

/-- C7 counterexample: for retry count n = 33 with base_delay = 1 ms and
max_delay = 2^33 ms, the code computes the base factor with
`2u32.saturating_pow`, which saturates at 2^32 - 1, so the delay differs
from the claimed formula based on the exact power 2^(n-1). -/
theorem C7_counterexample :
    Client.computeDelayMs 1 (2 ^ 33) 50 33 = 2147483647
    ∧ Client.claimedDelayMs 1 (2 ^ 33) 50 33 = 2147483648
    ∧ Client.computeDelayMs 1 (2 ^ 33) 50 33
        ≠ Client.claimedDelayMs 1 (2 ^ 33) 50 33 := by
  refine ⟨?_, ?_, ?_⟩ <;> decide

/-- C7 (amended): the delay before retry n (1-indexed) is
`min(base_delay * sat2^(n-1), max_delay) * j / 100` where `sat2` saturates
at 2^32 - 1 and `j = (url_len * n) % 50 + 50`; this agrees with the claimed
`min(base_delay * 2^(n-1), max_delay)` formula for every n ≤ 32; the jitter
numerator always lies in [50, 100), so when the capped delay is positive the
slept delay lies in [capped/2, capped); and the computation is a pure
function of the URL length, the attempt number and the policy, hence
deterministic across runs. -/
theorem C7_amended (baseMs maxMs urlLen n : Nat) (hn : 1 ≤ n) :
    (n ≤ 32 → Client.computeDelayMs baseMs maxMs urlLen n
        = Client.claimedDelayMs baseMs maxMs urlLen n)
    ∧ 50 ≤ Client.jitterNumer urlLen n ∧ Client.jitterNumer urlLen n < 100
    ∧ (0 < min (baseMs * Client.pow2sat (n - 1)) maxMs →
        min (baseMs * Client.pow2sat (n - 1)) maxMs / 2
            ≤ Client.computeDelayMs baseMs maxMs urlLen n
          ∧ Client.computeDelayMs baseMs maxMs urlLen n
            < min (baseMs * Client.pow2sat (n - 1)) maxMs) := by
  have hj : Client.jitterNumer urlLen n = urlLen * n % 50 + 50 := rfl
  refine ⟨?_, ?_, ?_, ?_⟩
  · intro h32
    have hp : Client.pow2sat (n - 1) = 2 ^ (n - 1) := by
      unfold Client.pow2sat
      have h1 : (2 : Nat) ^ (n - 1) ≤ 2 ^ 31 :=
        Nat.pow_le_pow_right (by norm_num) (by omega)
      have h2 : (2 : Nat) ^ 31 ≤ 2 ^ 32 - 1 := by norm_num
      exact Nat.min_eq_left (le_trans h1 h2)
    unfold Client.computeDelayMs Client.claimedDelayMs
    rw [hp]
  · rw [hj]; omega
  · rw [hj]; omega
  · intro hcap
    constructor
    · have h50 : min (baseMs * Client.pow2sat (n - 1)) maxMs * 50
          ≤ min (baseMs * Client.pow2sat (n - 1)) maxMs
            * Client.jitterNumer urlLen n := by
        refine Nat.mul_le_mul_left _ ?_
        rw [hj]; omega
      calc min (baseMs * Client.pow2sat (n - 1)) maxMs / 2
          = min (baseMs * Client.pow2sat (n - 1)) maxMs * 50 / 100 := by omega
        _ ≤ min (baseMs * Client.pow2sat (n - 1)) maxMs
            * Client.jitterNumer urlLen n / 100 := Nat.div_le_div_right h50
    · unfold Client.computeDelayMs
      rw [Nat.div_lt_iff_lt_mul (by omega : 0 < 100)]
      refine mul_lt_mul_of_pos_left ?_ hcap
      rw [hj]; omega

theorem C7_amended_witness :
    (1 ≤ 3 ∧ 3 ≤ 32 ∧ 0 < min (100 * Client.pow2sat (3 - 1)) 30000)
    ∧ Client.computeDelayMs 100 30000 37 3
        = Client.claimedDelayMs 100 30000 37 3 :=
  ⟨⟨by decide, by decide, by decide⟩,
    (C7_amended 100 30000 37 3 (by decide)).1 (by decide)⟩

namespace Transfer

/-- `DEFAULT_PART_SIZE` of `src/ops/transfer.rs`. -/
def DEFAULT_PART_SIZE : Nat := 8 * 1024 * 1024

/-- `MIN_PART_SIZE` of `src/ops/transfer.rs`. -/
def MIN_PART_SIZE : Nat := 100 * 1024

/-- `DEFAULT_MULTIPART_THRESHOLD` of `src/ops/transfer.rs`. -/
def DEFAULT_MULTIPART_THRESHOLD : Nat := 8 * 1024 * 1024

/-- `DEFAULT_CONCURRENCY` of `src/ops/transfer.rs`. -/
def DEFAULT_CONCURRENCY : Nat := 8

/-- The configuration fields of `TransferManager`. -/
structure TransferManager where
  partSize : Nat
  multipartThreshold : Nat
  concurrency : Nat
  enableCrc64 : Bool

/-- The fields of `TransferManagerBuilder`. -/
structure TransferManagerBuilder where
  partSize : Nat
  multipartThreshold : Nat
  concurrency : Nat
  enableCrc64 : Bool

/-- `TransferManagerBuilder::new`: the defaults. -/
def TransferManagerBuilder.new : TransferManagerBuilder :=
  { partSize := DEFAULT_PART_SIZE,
    multipartThreshold := DEFAULT_MULTIPART_THRESHOLD,
    concurrency := DEFAULT_CONCURRENCY,
    enableCrc64 := false }

/-- `TransferManagerBuilder::build`: clamp `part_size` up to the minimum and
`concurrency` up to 1 (`self.concurrency.max(1)`). -/
def TransferManagerBuilder.build (b : TransferManagerBuilder) : TransferManager :=
  { partSize := if b.partSize < MIN_PART_SIZE then MIN_PART_SIZE else b.partSize,
    multipartThreshold := b.multipartThreshold,
    concurrency := max b.concurrency 1,
    enableCrc64 := b.enableCrc64 }

/-- `Semaphore::new(self.concurrency)` in `upload_parts`: the number of
permits of the part-upload admission semaphore. -/
def TransferManager.semaphorePermits (m : TransferManager) : Nat := m.concurrency

/-- `data.chunks(part_size)`: the contiguous chunks of `data` of length `k`,
the last possibly shorter; the empty slice yields no chunks. (In Rust,
`chunks(0)` panics; callers guarantee `k > 0` via the builder clamp, and the
model returns no chunks in that unreachable case.) -/
def chunksOf (k : Nat) (l : List α) : List (List α) :=
  if h : l.isEmpty || k == 0 then []
  else l.take k :: chunksOf k (l.drop k)
termination_by l.length
decreasing_by
  simp only [Bool.or_eq_true, beq_iff_eq, List.isEmpty_eq_true] at h
  push_neg at h
  have hl : 0 < l.length := List.length_pos.mpr h.1
  simp only [List.length_drop]
  omega

/-- One completed part: 1-based part number and the response etag. -/
structure CompletedPart where
  partNumber : Nat
  etag : String
deriving DecidableEq

/-- `parts.sort_by_key(|p| p.part_number)`: a stable sort by part number,
modelled as insertion sort (any stable sort by one key computes the same
list). -/
def sortParts (l : List CompletedPart) : List CompletedPart :=
  List.insertionSort (fun p q => p.partNumber ≤ q.partNumber) l

/-- The parts spawned by the `upload_parts` loop in order: part `i` carries
part number `i + 1` and the etag its upload returns. -/
def spawnedParts (numParts : Nat) (etags : Nat → String) : List CompletedPart :=
  (List.range numParts).map (fun i => ⟨i + 1, etags (i + 1)⟩)

/-- `part_crcs`: per-chunk `(checksum, length)` pairs, pushed in chunk order
by the synchronous spawn loop when CRC64 is enabled. -/
def partCrcs (k : Nat) (data : List Crc64.Byte) : List (Nat × Nat) :=
  (chunksOf k data).map (fun c => (Crc64.checksum c, c.length))

/-- The `combined_crc` fold of `upload_parts`: start from 0 and fold each
part checksum through `combine` with its exact byte length. -/
def combinedCrc (k : Nat) (data : List Crc64.Byte) : Nat :=
  (partCrcs k data).foldl (fun crc pc => Crc64.combine crc pc.1 pc.2) 0

/-- The payload-visible outcome of `TransferManager::upload`. -/
structure UploadOutcome where
  multipart : Bool
  crc64 : Option Nat

/-- `TransferManager::upload`: simple upload when the payload size is at
most the threshold (whole-object checksum when CRC64 is enabled), multipart
otherwise (folded part checksums when CRC64 is enabled). -/
def TransferManager.upload (m : TransferManager) (data : List Crc64.Byte) :
    UploadOutcome :=
  if data.length ≤ m.multipartThreshold then
    { multipart := false,
      crc64 := if m.enableCrc64 then some (Crc64.checksum data) else none }
  else
    { multipart := true,
      crc64 := if m.enableCrc64 then some (combinedCrc m.partSize data) else none }

end Transfer

namespace Transfer

theorem chunksOf_cond_false {α : Type} {k : Nat} {l : List α}
    (he : l ≠ []) (hk : 0 < k) : ¬ (l.isEmpty || k == 0) = true := by
  simp only [Bool.or_eq_true, beq_iff_eq, List.isEmpty_eq_true]
  push_neg
  exact ⟨he, by omega⟩

theorem chunksOf_flatten_aux {α : Type} (k : Nat) (hk : 0 < k) :
    ∀ (n : Nat) (l : List α), l.length ≤ n → (chunksOf k l).flatten = l := by
  intro n
  induction n with
  | zero =>
    intro l hl
    have he : l = [] := List.length_eq_zero.mp (by omega)
    subst he
    rw [chunksOf]
    simp
  | succ n ih =>
    intro l hl
    by_cases he : l = []
    · subst he
      rw [chunksOf]
      simp
    · rw [chunksOf, dif_neg (chunksOf_cond_false he hk), List.flatten_cons]
      rw [ih (l.drop k) (by simp only [List.length_drop]; omega)]
      exact List.take_append_drop k l

theorem chunksOf_flatten {α : Type} (k : Nat) (hk : 0 < k) (l : List α) :
    (chunksOf k l).flatten = l :=
  chunksOf_flatten_aux k hk l.length l (le_refl _)

theorem chunksOf_length_aux {α : Type} (k : Nat) (hk : 0 < k) :
    ∀ (n : Nat) (l : List α), l.length ≤ n →
      (chunksOf k l).length = (l.length + k - 1) / k := by
  intro n
  induction n with
  | zero =>
    intro l hl
    have he : l = [] := List.length_eq_zero.mp (by omega)
    subst he
    rw [chunksOf, dif_pos (by simp), List.length_nil]
    rw [show ([] : List α).length + k - 1 = k - 1 from by simp,
      Nat.div_eq_of_lt (by omega)]
  | succ n ih =>
    intro l hl
    by_cases he : l = []
    · subst he
      rw [chunksOf, dif_pos (by simp), List.length_nil]
      rw [show ([] : List α).length + k - 1 = k - 1 from by simp,
        Nat.div_eq_of_lt (by omega)]
    · rw [chunksOf, dif_neg (chunksOf_cond_false he hk), List.length_cons,
        ih (l.drop k) (by simp only [List.length_drop]; omega), List.length_drop]
      have hlp : 0 < l.length := List.length_pos.mpr he
      by_cases hlk : l.length ≤ k
      · have h1 : l.length - k = 0 := by omega
        rw [h1, Nat.div_eq_of_lt (by omega),
          @Nat.div_eq_of_lt_le 1 k (l.length + k - 1) (by omega) (by omega)]
      · have e1 : l.length - k + k - 1 = l.length - 1 - k + k := by omega
        have e2 : l.length + k - 1 = l.length - 1 + k := by omega
        have e3 : (l.length - 1) / k = (l.length - 1 - k) / k + 1 := by
          conv_lhs =>
            rw [show l.length - 1 = l.length - 1 - k + k from by omega]
          rw [Nat.add_div_right _ hk]
        rw [e1, Nat.add_div_right _ hk, e2, Nat.add_div_right _ hk, e3]

theorem chunksOf_length {α : Type} (k : Nat) (hk : 0 < k) (l : List α) :
    (chunksOf k l).length = (l.length + k - 1) / k :=
  chunksOf_length_aux k hk l.length l (le_refl _)

theorem combine_foldl_zero (cs : List (List Crc64.Byte)) :
    cs.foldl (fun crc c => Crc64.combine crc (Crc64.checksum c) c.length) 0
      = Crc64.checksum cs.flatten := by
  cases cs with
  | nil => rfl
  | cons c cs =>
    show cs.foldl _ (Crc64.combine 0 (Crc64.checksum c) c.length) = _
    have h0 : Crc64.combine 0 (Crc64.checksum c) c.length = Crc64.checksum c := by
      by_cases hc : c.length = 0
      · have he : c = [] := List.length_eq_zero.mp hc
        subst he
        rfl
      · rw [Crc64.combine_eq 0 _ _ (by norm_num) hc, Crc64.crcStepN_zero,
          Nat.zero_xor]
    rw [h0, Crc64.combine_fold]

theorem combinedCrc_eq (k : Nat) (hk : 0 < k) (data : List Crc64.Byte) :
    combinedCrc k data = Crc64.checksum data := by
  unfold combinedCrc partCrcs
  rw [List.foldl_map]
  show (chunksOf k data).foldl
      (fun crc c => Crc64.combine crc (Crc64.checksum c) c.length) 0
    = Crc64.checksum data
  rw [combine_foldl_zero, chunksOf_flatten k hk data]

instance : IsTotal CompletedPart (fun p q => p.partNumber ≤ q.partNumber) :=
  ⟨fun a b => Nat.le_total a.partNumber b.partNumber⟩

instance : IsTrans CompletedPart (fun p q => p.partNumber ≤ q.partNumber) :=
  ⟨fun _ _ _ => Nat.le_trans⟩

end Transfer

/-! ## Claims C3 and C10 -/

/-- C3: a payload of size at most the multipart threshold takes the simple
upload path (multipart = false) and a larger one the multipart path; the
chunking splits the payload into ceil(total_size / part_size) contiguous
parts whose concatenation is the payload; the completed parts are sorted
ascending by part number before the complete call, whatever order the
concurrent uploads finished in; and with CRC64 enabled, the reported crc64
(folding the per-part checksums in part order through combine with each
part's exact length) equals the checksum of the entire payload. -/
theorem C3_transfer_upload (m : Transfer.TransferManager)
    (data : List Crc64.Byte) (hp : 0 < m.partSize) :
    ((data.length ≤ m.multipartThreshold → (m.upload data).multipart = false)
      ∧ (m.multipartThreshold < data.length → (m.upload data).multipart = true))
    ∧ (Transfer.chunksOf m.partSize data).flatten = data
    ∧ (Transfer.chunksOf m.partSize data).length
        = (data.length + m.partSize - 1) / m.partSize
    ∧ (∀ collected : List Transfer.CompletedPart,
        List.Sorted (fun p q => p.partNumber ≤ q.partNumber)
          (Transfer.sortParts collected)
        ∧ List.Perm (Transfer.sortParts collected) collected)
    ∧ (m.enableCrc64 = true →
        (m.upload data).crc64 = some (Crc64.checksum data)) := by
  refine ⟨⟨?_, ?_⟩, Transfer.chunksOf_flatten _ hp data,
    Transfer.chunksOf_length _ hp data,
    fun collected => ⟨List.sorted_insertionSort _ collected,
      List.perm_insertionSort _ collected⟩, ?_⟩
  · intro h
    unfold Transfer.TransferManager.upload
    rw [if_pos h]
  · intro h
    unfold Transfer.TransferManager.upload
    rw [if_neg (by omega)]
  · intro hcrc
    unfold Transfer.TransferManager.upload
    by_cases h : data.length ≤ m.multipartThreshold
    · rw [if_pos h]
      simp [hcrc]
    · rw [if_neg h]
      show (if m.enableCrc64 = true then some (Transfer.combinedCrc m.partSize data)
          else none) = some (Crc64.checksum data)
      rw [hcrc, if_pos rfl, Transfer.combinedCrc_eq m.partSize hp data]

theorem C3_transfer_upload_witness :
    0 < (Transfer.TransferManager.mk 2 1 1 true).partSize
    ∧ ((Transfer.TransferManager.mk 2 1 1 true).upload [0, 1, 2]).crc64
        = some (Crc64.checksum [0, 1, 2]) :=
  ⟨by decide,
    (C3_transfer_upload (Transfer.TransferManager.mk 2 1 1 true) [0, 1, 2]
      (by decide)).2.2.2.2 rfl⟩

/-- C10: every TransferManager produced by the builder has concurrency at
least 1 (a requested concurrency of 0 is clamped up to 1) and a part size of
at least the 100 KiB minimum, and the part-upload admission semaphore is
created with exactly that concurrency, hence with at least one permit. -/
theorem C10_builder_invariants :
    ∀ b : Transfer.TransferManagerBuilder,
      1 ≤ b.build.concurrency
      ∧ Transfer.MIN_PART_SIZE ≤ b.build.partSize
      ∧ b.build.semaphorePermits = b.build.concurrency
      ∧ (b.concurrency = 0 → b.build.concurrency = 1) := by
  intro b
  refine ⟨Nat.le_max_right _ _, ?_, rfl, ?_⟩
  · show Transfer.MIN_PART_SIZE
      ≤ if b.partSize < Transfer.MIN_PART_SIZE then Transfer.MIN_PART_SIZE
        else b.partSize
    split
    · exact le_refl _
    · omega
  · intro h0
    show max b.concurrency 1 = 1
    rw [h0]
    exact max_eq_right (by omega)

theorem C10_builder_invariants_witness :
    (Transfer.TransferManagerBuilder.mk 1024 0 0 false).concurrency = 0
    ∧ (Transfer.TransferManagerBuilder.mk 1024 0 0 false).build.concurrency = 1 :=
  ⟨rfl,
    (C10_builder_invariants (Transfer.TransferManagerBuilder.mk 1024 0 0 false)).2.2.2
      rfl⟩

namespace Credential

/-- The credential record produced by a provider. -/
structure Credentials where
  accessKeyId : String
  accessKeySecret : String
  securityToken : Option String
deriving DecidableEq

/-- The error variants `EnvironmentProvider::resolve` can produce. -/
inductive CredError where
  | missingField (name : String)
  | invalidParameter (field reason : String)
deriving DecidableEq

/-- Models `access_key_id.trim().is_empty()`: a string trims to the empty
string exactly when every character is whitespace. -/
def trimIsEmpty (s : String) : Bool := s.data.all Char.isWhitespace

/-- `EnvironmentProvider::resolve` from `src/credential.rs`, with the
process environment modelled as a partial map from variable name to value
(`std::env::var` errors on an unset variable): a missing required variable
is an error; an access key id that is empty after trimming is an error; the
optional session token is attached only when present and non-empty. -/
def envResolve (env : String → Option String) : Except CredError Credentials :=
  match env ("ALIBABA_CLOUD_ACCESS_KEY_ID") with
  | none => .error (.missingField
      ("ALIBABA_CLOUD_ACCESS_KEY_ID environment variable not set"))
  | some accessKeyId =>
    match env ("ALIBABA_CLOUD_ACCESS_KEY_SECRET") with
    | none => .error (.missingField
        ("ALIBABA_CLOUD_ACCESS_KEY_SECRET environment variable not set"))
    | some accessKeySecret =>
      if trimIsEmpty accessKeyId then
        .error (.invalidParameter ("ALIBABA_CLOUD_ACCESS_KEY_ID")
          ("must not be empty"))
      else
        match env ("ALIBABA_CLOUD_SECURITY_TOKEN") with
        | some token =>
          if !token.isEmpty then .ok ⟨accessKeyId, accessKeySecret, some token⟩
          else .ok ⟨accessKeyId, accessKeySecret, none⟩
        | none => .ok ⟨accessKeyId, accessKeySecret, none⟩

end Credential

/-! ## Claim C9 -/

/-- C9 counterexample: with the access key id set to a non-empty value, the
access key secret set but EMPTY, and no session token, the environment
provider succeeds and returns credentials with the empty secret — it does
not return an error as the claim requires for an empty required value. -/
theorem C9_counterexample :
    Credential.envResolve (fun v =>
        if v = "ALIBABA_CLOUD_ACCESS_KEY_ID" then some ("id")
        else if v = "ALIBABA_CLOUD_ACCESS_KEY_SECRET" then some ("")
        else none)
      = .ok ⟨"id", "", none⟩ := by
  rfl

/-- C9 (amended): the environment source errors when a required variable
(access key id or secret) is MISSING, and when the access key id is present
but empty after trimming; an empty access key secret is accepted unchecked;
and a present-but-empty session token is treated as absent (credentials are
returned without a token). -/
theorem C9_env_provider (env : String → Option String) :
    (env ("ALIBABA_CLOUD_ACCESS_KEY_ID") = none →
        Credential.envResolve env = .error (.missingField
          ("ALIBABA_CLOUD_ACCESS_KEY_ID environment variable not set")))
    ∧ (∀ id, env ("ALIBABA_CLOUD_ACCESS_KEY_ID") = some id →
        env ("ALIBABA_CLOUD_ACCESS_KEY_SECRET") = none →
        Credential.envResolve env = .error (.missingField
          ("ALIBABA_CLOUD_ACCESS_KEY_SECRET environment variable not set")))
    ∧ (∀ id secret, env ("ALIBABA_CLOUD_ACCESS_KEY_ID") = some id →
        env ("ALIBABA_CLOUD_ACCESS_KEY_SECRET") = some secret →
        Credential.trimIsEmpty id = true →
        Credential.envResolve env = .error (.invalidParameter
          ("ALIBABA_CLOUD_ACCESS_KEY_ID") ("must not be empty")))
    ∧ (∀ id secret, env ("ALIBABA_CLOUD_ACCESS_KEY_ID") = some id →
        env ("ALIBABA_CLOUD_ACCESS_KEY_SECRET") = some secret →
        Credential.trimIsEmpty id = false →
        env ("ALIBABA_CLOUD_SECURITY_TOKEN") = some ("") →
        Credential.envResolve env = .ok ⟨id, secret, none⟩) := by
  refine ⟨?_, ?_, ?_, ?_⟩
  · intro h
    unfold Credential.envResolve
    rw [h]
  · intro id hid hsec
    unfold Credential.envResolve
    rw [hid, hsec]
  · intro id secret hid hsec htrim
    unfold Credential.envResolve
    rw [hid, hsec]
    simp [htrim]
  · intro id secret hid hsec htrim htok
    unfold Credential.envResolve
    rw [hid, hsec, htok]
    simp only [htrim, Bool.false_eq_true, if_false]
    rw [if_neg (by decide)]

theorem C9_env_provider_witness :
    ((fun v =>
        if v = "ALIBABA_CLOUD_ACCESS_KEY_ID" then some ("id")
        else if v = "ALIBABA_CLOUD_ACCESS_KEY_SECRET" then some ("")
        else if v = "ALIBABA_CLOUD_SECURITY_TOKEN" then some ("")
        else none) ("ALIBABA_CLOUD_ACCESS_KEY_ID") = some ("id")
    ∧ Credential.trimIsEmpty ("id") = false)
    ∧ Credential.envResolve (fun v =>
        if v = "ALIBABA_CLOUD_ACCESS_KEY_ID" then some ("id")
        else if v = "ALIBABA_CLOUD_ACCESS_KEY_SECRET" then some ("")
        else if v = "ALIBABA_CLOUD_SECURITY_TOKEN" then some ("")
        else none) = .ok ⟨"id", "", none⟩ :=
  ⟨⟨rfl, by decide⟩,
    (C9_env_provider (fun v =>
        if v = "ALIBABA_CLOUD_ACCESS_KEY_ID" then some ("id")
        else if v = "ALIBABA_CLOUD_ACCESS_KEY_SECRET" then some ("")
        else if v = "ALIBABA_CLOUD_SECURITY_TOKEN" then some ("")
        else none)).2.2.2 ("id") ("") rfl rfl (by decide) rfl⟩

namespace Encoding

/-- ASCII alphanumeric bytes (never encoded by the shared sets). -/
def isAsciiAlphanum (b : Nat) : Bool :=
  decide ((48 ≤ b ∧ b ≤ 57) ∨ (65 ≤ b ∧ b ≤ 90) ∨ (97 ≤ b ∧ b ≤ 122))

/-- Bytes passed through unencoded by `URI_ENCODE_SET`: alphanumerics and
the removed bytes `- . _ ~ /` (bytes outside ASCII are always encoded). -/
def uriAllowed (b : Nat) : Bool :=
  isAsciiAlphanum b || decide (b = 45 ∨ b = 46 ∨ b = 95 ∨ b = 126 ∨ b = 47)

/-- Bytes passed through unencoded by `QUERY_ENCODE_SET`: as above, but the
forward slash IS encoded. -/
def queryAllowed (b : Nat) : Bool :=
  isAsciiAlphanum b || decide (b = 45 ∨ b = 46 ∨ b = 95 ∨ b = 126)

/-- Upper-case hex digit, as emitted by the percent-encoding crate. -/
def hexDigit (n : Nat) : Char :=
  if n < 10 then Char.ofNat (48 + n) else Char.ofNat (55 + n)

/-- `percent_encode` of one byte: pass it through when it is in the allow
set, otherwise emit `%XX` with upper-case hex. -/
def encodeByte (allowed : Nat → Bool) (b : Nat) : List Char :=
  if allowed b then [Char.ofNat b]
  else ['%', hexDigit (b / 16), hexDigit (b % 16)]

/-- The UTF-8 encoding of a character, as a list of byte values. -/
def utf8Bytes (c : Char) : List Nat :=
  let n := c.toNat
  if n < 128 then [n]
  else if n < 2048 then [192 + n / 64, 128 + n % 64]
  else if n < 65536 then [224 + n / 4096, 128 + n / 64 % 64, 128 + n % 64]
  else [240 + n / 262144, 128 + n / 4096 % 64, 128 + n / 64 % 64, 128 + n % 64]

/-- The UTF-8 bytes of a string (`path.as_bytes()`). -/
def strBytes (s : String) : List Nat := (s.data.map utf8Bytes).flatten

/-- `percent_encode(bytes, SET).to_string()`. -/
def percentEncode (allowed : Nat → Bool) (bytes : List Nat) : String :=
  String.mk ((bytes.map (encodeByte allowed)).flatten)

end Encoding

namespace Auth

/-- `canonical_uri` from `src/auth/v4.rs`: the empty path and "/"
canonicalize to "/"; any other path is percent-encoded with the URI set
(slash preserved). -/
def canonicalUri (path : String) : String :=
  if path = "" || path = "/" then "/"
  else Encoding.percentEncode Encoding.uriAllowed (Encoding.strBytes path)

/-- Strict lexicographic comparison of char lists by code point. On the
percent-encoded pairs (pure ASCII) this is exactly the byte-lexicographic
`Ord` that `str::cmp` uses in the sort comparator. -/
def charsLt : List Char → List Char → Bool
  | [], [] => false
  | [], _ :: _ => true
  | _ :: _, [] => false
  | x :: xs, y :: ys =>
    if x.toNat < y.toNat then true
    else if y.toNat < x.toNat then false
    else charsLt xs ys

/-- The comparator of `canonical_query_string`:
`a.0.cmp(&b.0).then(a.1.cmp(&b.1))` — ascending by encoded key, ties broken
by encoded value (key strictly smaller, or keys equal and value not
greater). -/
def pairLe (a b : String × String) : Prop :=
  charsLt a.1.data b.1.data = true
  ∨ (a.1.data = b.1.data ∧ charsLt b.2.data a.2.data = false)

instance : DecidableRel pairLe := fun a b => by
  unfold pairLe
  infer_instance

/-- The percent-encoded query pairs, in input order. -/
def encodedPairs (pairs : List (String × String)) : List (String × String) :=
  pairs.map (fun kv =>
    (Encoding.percentEncode Encoding.queryAllowed (Encoding.strBytes kv.1),
     Encoding.percentEncode Encoding.queryAllowed (Encoding.strBytes kv.2)))

/-- The encoded pairs sorted by `pairLe` (`sort_by` is a stable sort,
modelled as insertion sort). -/
def sortedEncodedPairs (pairs : List (String × String)) : List (String × String) :=
  List.insertionSort pairLe (encodedPairs pairs)

/-- `canonical_query_string` from `src/auth/v4.rs`, applied to the decoded
query pairs of the URL: encode, sort, and join as k=v with &. -/
def canonicalQueryString (pairs : List (String × String)) : String :=
  String.intercalate ("&")
    ((sortedEncodedPairs pairs).map (fun kv => kv.1 ++ "=" ++ kv.2))

end Auth

namespace Encoding

theorem passthrough (allowed : Nat → Bool) (l : List Char)
    (h : ∀ c ∈ l, c.toNat < 128 ∧ allowed c.toNat = true) :
    ((l.map utf8Bytes).flatten.map (encodeByte allowed)).flatten = l := by
  induction l with
  | nil => rfl
  | cons c l ih =>
    have hc := h c (List.mem_cons_self c l)
    have hrest : ∀ x ∈ l, x.toNat < 128 ∧ allowed x.toNat = true :=
      fun x hx => h x (List.mem_cons_of_mem c hx)
    have hu : utf8Bytes c = [c.toNat] := by
      unfold utf8Bytes
      rw [if_pos hc.1]
    rw [List.map_cons, List.flatten_cons, hu, List.map_append,
      List.flatten_append, ih hrest]
    simp only [List.map_cons, List.map_nil, List.flatten_cons,
      List.flatten_nil, List.append_nil]
    unfold encodeByte
    rw [if_pos hc.2, Char.ofNat_toNat]
    rfl

end Encoding

namespace Auth

theorem canonicalUri_passthrough (s : String) (hne : s ≠ "")
    (h : ∀ c ∈ s.data, c.toNat < 128 ∧ Encoding.uriAllowed c.toNat = true) :
    canonicalUri s = s := by
  unfold canonicalUri
  by_cases hs : s = "/"
  · rw [if_pos (by simp [hs])]
    exact hs.symm
  · rw [if_neg (by simp [hne, hs])]
    unfold Encoding.percentEncode Encoding.strBytes
    rw [Encoding.passthrough _ _ h]

theorem charsLt_irrefl : ∀ xs : List Char, charsLt xs xs = false := by
  intro xs
  induction xs with
  | nil => rfl
  | cons x xs ih =>
    unfold charsLt
    rw [if_neg (by omega), if_neg (by omega)]
    exact ih

theorem charsLt_trichotomy : ∀ xs ys : List Char,
    charsLt xs ys = true ∨ charsLt ys xs = true ∨ xs = ys := by
  intro xs
  induction xs with
  | nil =>
    intro ys
    cases ys with
    | nil => exact Or.inr (Or.inr rfl)
    | cons y ys => exact Or.inl rfl
  | cons x xs ih =>
    intro ys
    cases ys with
    | nil => exact Or.inr (Or.inl rfl)
    | cons y ys =>
      by_cases h1 : x.toNat < y.toNat
      · left
        unfold charsLt
        rw [if_pos h1]
      · by_cases h2 : y.toNat < x.toNat
        · right
          left
          unfold charsLt
          rw [if_pos h2]
        · have hxy : x = y := by
            have hn : x.toNat = y.toNat := by omega
            calc x = Char.ofNat x.toNat := (Char.ofNat_toNat x).symm
              _ = Char.ofNat y.toNat := by rw [hn]
              _ = y := Char.ofNat_toNat y
          subst hxy
          rcases ih ys with h | h | h
          · left
            unfold charsLt
            rw [if_neg (by omega), if_neg (by omega)]
            exact h
          · right
            left
            unfold charsLt
            rw [if_neg (by omega), if_neg (by omega)]
            exact h
          · right
            right
            rw [h]

theorem charsLt_trans : ∀ xs ys zs : List Char, charsLt xs ys = true →
    charsLt ys zs = true → charsLt xs zs = true := by
  intro xs
  induction xs with
  | nil =>
    intro ys zs h1 h2
    cases ys with
    | nil => exact absurd h1 (by rw [charsLt_irrefl]; simp)
    | cons y ys =>
      cases zs with
      | nil => simp [charsLt] at h2
      | cons z zs => rfl
  | cons x xs ih =>
    intro ys zs h1 h2
    cases ys with
    | nil => simp [charsLt] at h1
    | cons y ys =>
      cases zs with
      | nil => simp [charsLt] at h2
      | cons z zs =>
        unfold charsLt at h1 h2 ⊢
        by_cases a1 : x.toNat < y.toNat
        · by_cases b1 : y.toNat < z.toNat
          · rw [if_pos (by omega : x.toNat < z.toNat)]
          · by_cases b2 : z.toNat < y.toNat
            · rw [if_neg b1, if_pos b2] at h2
              exact absurd h2 (by simp)
            · rw [if_pos (by omega : x.toNat < z.toNat)]
        · by_cases a2 : y.toNat < x.toNat
          · rw [if_neg a1, if_pos a2] at h1
            exact absurd h1 (by simp)
          · rw [if_neg a1, if_neg a2] at h1
            by_cases b1 : y.toNat < z.toNat
            · rw [if_pos (by omega : x.toNat < z.toNat)]
            · by_cases b2 : z.toNat < y.toNat
              · rw [if_neg b1, if_pos b2] at h2
                exact absurd h2 (by simp)
              · rw [if_neg b1, if_neg b2] at h2
                rw [if_neg (by omega : ¬ x.toNat < z.toNat),
                  if_neg (by omega : ¬ z.toNat < x.toNat)]
                exact ih ys zs h1 h2

theorem charsLt_asymm {xs ys : List Char} (h : charsLt xs ys = true) :
    charsLt ys xs = false := by
  by_contra hc
  have h2 : charsLt ys xs = true := by
    revert hc
    cases charsLt ys xs <;> simp
  have h3 := charsLt_trans xs ys xs h h2
  rw [charsLt_irrefl] at h3
  exact absurd h3 (by simp)

instance : IsTotal (String × String) pairLe := ⟨by
  intro a b
  unfold pairLe
  rcases charsLt_trichotomy a.1.data b.1.data with h | h | h
  · exact Or.inl (Or.inl h)
  · exact Or.inr (Or.inl h)
  · rcases charsLt_trichotomy a.2.data b.2.data with hv | hv | hv
    · exact Or.inl (Or.inr ⟨h, charsLt_asymm hv⟩)
    · exact Or.inr (Or.inr ⟨h.symm, charsLt_asymm hv⟩)
    · refine Or.inl (Or.inr ⟨h, ?_⟩)
      rw [hv, charsLt_irrefl]⟩

instance : IsTrans (String × String) pairLe := ⟨by
  intro a b c hab hbc
  unfold pairLe at *
  rcases hab with h1 | ⟨e1, v1⟩ <;> rcases hbc with h2 | ⟨e2, v2⟩
  · exact Or.inl (charsLt_trans _ _ _ h1 h2)
  · exact Or.inl (by rw [← e2]; exact h1)
  · exact Or.inl (by rw [e1]; exact h2)
  · refine Or.inr ⟨e1.trans e2, ?_⟩
    by_contra hc
    have hlt : charsLt c.2.data a.2.data = true := by
      revert hc
      cases charsLt c.2.data a.2.data <;> simp
    rcases charsLt_trichotomy a.2.data b.2.data with hv | hv | hv
    · have := charsLt_trans _ _ _ hlt hv
      rw [v2] at this
      exact absurd this (by simp)
    · rw [v1] at hv
      exact absurd hv (by simp)
    · rw [hv] at hlt
      rw [v2] at hlt
      exact absurd hlt (by simp)⟩

end Auth

/-! ## Claim C8 -/

/-- C8: the canonical URI of the empty path and of "/" is "/"; a path of
unreserved characters passes through unchanged; "/bucket/hello world.txt"
encodes to "/bucket/hello%20world.txt"; the canonical query string encodes
keys and values (with '/' percent-encoded as %2F, unlike the URI set where
'/' passes through) and sorts the encoded pairs ascending by key then by
value joined with '&', so z=1&a=2&m=3 becomes a=2&m=3&z=1. -/
theorem C8_canonicalization :
    Auth.canonicalUri ("") = "/"
    ∧ Auth.canonicalUri ("/") = "/"
    ∧ Auth.canonicalUri ("/bucket/hello world.txt") = "/bucket/hello%20world.txt"
    ∧ (∀ s : String, s ≠ "" →
        (∀ c ∈ s.data, c.toNat < 128 ∧ Encoding.uriAllowed c.toNat = true) →
        Auth.canonicalUri s = s)
    ∧ Auth.canonicalQueryString [("z", "1"), ("a", "2"), ("m", "3")]
        = "a=2&m=3&z=1"
    ∧ (∀ pairs : List (String × String),
        List.Sorted Auth.pairLe (Auth.sortedEncodedPairs pairs)
        ∧ List.Perm (Auth.sortedEncodedPairs pairs) (Auth.encodedPairs pairs))
    ∧ Encoding.encodeByte Encoding.queryAllowed 47 = ['%', '2', 'F']
    ∧ Encoding.uriAllowed 47 = true := by
  refine ⟨rfl, rfl, by decide, Auth.canonicalUri_passthrough, by decide,
    fun pairs => ⟨List.sorted_insertionSort _ _, List.perm_insertionSort _ _⟩,
    by decide, by decide⟩

theorem C8_canonicalization_witness :
    (("abc-1.txt" : String) ≠ ""
      ∧ (∀ c ∈ ("abc-1.txt" : String).data,
          c.toNat < 128 ∧ Encoding.uriAllowed c.toNat = true))
    ∧ Auth.canonicalUri ("abc-1.txt") = "abc-1.txt" :=
  ⟨⟨by decide, by decide⟩,
    C8_canonicalization.2.2.2.1 ("abc-1.txt") (by decide) (by decide)⟩
